import Mathlib

/-!
# Shallow embedding of `nbtee2` (`writer.go`)

`nbtee2.Tee` is an asynchronous one-to-many pipe.  The embedding below
translates the Go source into Lean:

* a Go `chan []byte` with capacity `highwater` becomes `Chan`: a bounded
  FIFO list of chunks plus a `closed` flag; the producer side
  (`select { case r.ch <- buf: default: }`) is the non-blocking `trySend`;
* a `reader` becomes `Reader` (channel, `todo` bytes, `lowwater`, and the
  cancellation flag of its `context.Context`); the reusable accumulator
  `r.buf` is value-level, so `fillTodo` returns the list of chunks the
  accumulation loop consumed and sets `todo` to their concatenation —
  exactly the bytes `append(r.buf, buf...)` accumulates;
* Go's `select` between a channel receive and `<-ctx.Done()` is
  nondeterministic when both are ready, so `selectRecv` takes an oracle
  bit that decides which ready case fires;
* a blocking receive with nothing ready is modeled by returning `none`
  ("this call would block given no further external events");
* the `Tee` and all readers ever created live in a `World`; readers are
  identified by their creation index.  `Tee.readers` is a Go map that may
  be `nil`, modeled by `Option`; `Tee.Close` sets it back to `nil`.

Bytes are `Nat` (Go `byte` values; arithmetic that can wrap is reduced
`% 256` where it occurs).
-/

/-- The two error values a reader can produce: `io.EOF`, and the error of
a cancelled `context.Context` (`r.ctx.Err()`). -/
inductive RErr where
  | eof
  | canceled
deriving DecidableEq, Repr

/-- A Go buffered channel of byte slices: capacity, queued chunks
(front of the list is the oldest), and whether `close` has been called. -/
structure Chan where
  cap : Nat
  buf : List (List Nat)
  closed : Bool
deriving DecidableEq, Repr

/-- The producer side of `select { case r.ch <- buf: default: }`: enqueue
if there is room, otherwise drop the chunk for this channel.  (`Tee.Write`
only sends to registered readers, whose channels are open.) -/
def Chan.trySend (c : Chan) (p : List Nat) : Chan :=
  if c.buf.length < c.cap then { c with buf := c.buf ++ [p] } else c

/-- The `reader` struct: its channel, the residual bytes `todo`, the
`lowwater` setting, and whether its `context.Context` is done. -/
structure Reader where
  ch : Chan
  todo : List Nat
  lowwater : Nat
  ctxDone : Bool
deriving DecidableEq, Repr

instance : Inhabited Reader :=
  ⟨{ ch := { cap := 0, buf := [], closed := false }, todo := [],
     lowwater := 0, ctxDone := false }⟩

/-- Outcome of one `select` between `<-r.ch` and `<-r.ctx.Done()`. -/
inductive RecvOut where
  | chunk (b : List Nat)
  | chClosed
  | ctxFired
  | blocked
deriving DecidableEq, Repr

/-- One `select { case buf, ok := <-r.ch: ... case <-r.ctx.Done(): ... }`.
The channel case is ready when a chunk is queued or the channel is closed;
the context case is ready when the context is done.  When both are ready,
Go picks uniformly at random: the oracle bit `pick` decides (`true` means
the channel case). -/
def selectRecv (pick : Bool) (r : Reader) : RecvOut :=
  let chReady := r.ch.buf ≠ [] ∨ r.ch.closed = true
  let chCase : RecvOut :=
    match r.ch.buf with
    | b :: _ => .chunk b
    | [] => .chClosed
  if chReady ∧ r.ctxDone = true then (if pick then chCase else .ctxFired)
  else if chReady then chCase
  else if r.ctxDone = true then .ctxFired
  else .blocked

/-- Drop the front chunk of the reader's channel (the effect of a
successful receive). -/
def Reader.deq (r : Reader) : Reader :=
  { r with ch := { r.ch with buf := r.ch.buf.tail } }

/-- The accumulation loop of `fillTodo`:
`for i := 0; i < lowwater && err == nil; i++ { select ... }`.
Returns the reader after the dequeues, the list of chunks consumed (the
accumulator `r.buf` holds their concatenation), and the error, if any,
that ended the loop early; `none` if some iteration would block. -/
def fillLoop : Nat → List Bool → Reader → List (List Nat) →
    Option (Reader × List (List Nat) × Option RErr)
  | 0, _, r, acc => some (r, acc, none)
  | n + 1, oracle, r, acc =>
    match selectRecv (oracle.headD true) r with
    | .chunk b => fillLoop n oracle.tail r.deq (acc ++ [b])
    | .chClosed => some (r, acc, some .eof)
    | .ctxFired => some (r, acc, some .canceled)
    | .blocked => none

/-- The loop bound of `fillTodo`:
`lowwater := 1; if r.lowwater > 1 && len(r.ch) == 0 { lowwater = r.lowwater }`. -/
def fillTarget (r : Reader) : Nat :=
  if r.lowwater > 1 ∧ r.ch.buf.length = 0 then r.lowwater else 1

/-- The post-loop catch-up heuristic:
`if cap(r.ch) > 2 && len(r.ch) >= cap(r.ch)-1 { for len(r.ch) > 0 { <-r.ch } }`. -/
def drainNearFull (c : Chan) : Chan :=
  if c.cap > 2 ∧ c.buf.length ≥ c.cap - 1 then { c with buf := [] } else c

/-- `reader.fillTodo`.  Returns the updated reader, the chunks consumed
into `todo`, and the error to return; `none` when the call would block
(no chunk ready, channel open, context live). -/
def fillTodo (oracle : List Bool) (r : Reader) :
    Option (Reader × List (List Nat) × Option RErr) :=
  if r.todo ≠ [] then some (r, [], none)
  else
    match fillLoop (fillTarget r) oracle r [] with
    | none => none
    | some (r1, acc, err) =>
      some ({ r1 with ch := drainNearFull r1.ch, todo := acc.flatten }, acc, err)

/-- `reader.Read`: fill `todo`, copy at most `plen` bytes out of it, keep
the rest.  Returns the updated reader, the bytes copied, and the error
from `fillTodo`; `none` when the fill would block. -/
def rread (oracle : List Bool) (r : Reader) (plen : Nat) :
    Option (Reader × List Nat × Option RErr) :=
  match fillTodo oracle r with
  | none => none
  | some (r1, _, err) =>
    let n := min plen r1.todo.length
    some ({ r1 with todo := r1.todo.drop n }, r1.todo.take n, err)

/-- The broadcaster and every reader ever created, readers identified by
creation index.  `regs` is `Tee.readers`: `none` is the `nil` map. -/
structure World where
  regs : Option (List Nat)
  readers : List Reader
deriving DecidableEq, Repr

/-- The zero-value `Tee`: `readers` map `nil`, no reader ever created. -/
def zeroWorld : World := { regs := none, readers := [] }

/-- Is reader `id` currently registered?  (Iteration over a `nil` map
visits nothing.) -/
def World.registered (w : World) (id : Nat) : Prop :=
  id ∈ w.regs.getD []

instance (w : World) (id : Nat) : Decidable (w.registered id) := by
  unfold World.registered; infer_instance

/-- Apply `f` to reader `id` (no-op when `id` is out of range, which never
happens for registered ids reached from `zeroWorld`). -/
def World.updReader (w : World) (id : Nat) (f : Reader → Reader) : World :=
  { w with readers := w.readers.set id (f (w.readers.getD id default)) }

/-- The state of reader `id` (a default, never-registered reader when out
of range). -/
def World.rd (w : World) (id : Nat) : Reader :=
  w.readers.getD id default

/-- `Tee.Write`: copy `p` (value semantics make the defensive copy the
identity), then try a non-blocking send to every registered reader.
Returns `(len(p), nil)` always. -/
def Tee.Write (w : World) (p : List Nat) : World × Nat × Option RErr :=
  (((w.regs.getD []).foldl
      (fun acc id => acc.updReader id
        (fun r => { r with ch := r.ch.trySend p })) w),
    p.length, none)

/-- `Tee.Close`: close every registered reader's channel and set the
registry to `nil`.  Returns `nil`. -/
def Tee.Close (w : World) : World × Option RErr :=
  (({ ((w.regs.getD []).foldl
        (fun acc id => acc.updReader id
          (fun r => { r with ch := { r.ch with closed := true } })) w)
      with regs := none }),
    none)

/-- `Tee.NewReaderContext`: make a channel of capacity `highwater`,
allocate the registry if it is `nil`, register the reader.  Returns the
new reader's id. -/
def Tee.NewReaderContext (w : World) (ctxDone : Bool)
    (lowwater highwater : Nat) : World × Nat :=
  let id := w.readers.length
  (({ regs := some (w.regs.getD [] ++ [id]),
      readers := w.readers ++
        [{ ch := { cap := highwater, buf := [], closed := false },
           todo := [], lowwater := lowwater, ctxDone := ctxDone }] }),
    id)

/-- `Tee.NewReader`: `NewReaderContext` with `context.Background()`,
which is never done. -/
def Tee.NewReader (w : World) (lowwater highwater : Nat) : World × Nat :=
  Tee.NewReaderContext w false lowwater highwater

/-- `reader.Close`: under the lock, if still registered, close the
channel and deregister; otherwise do nothing.  Returns `nil` always. -/
def readerClose (w : World) (id : Nat) : World × Option RErr :=
  if w.registered id then
    (({ w.updReader id (fun r => { r with ch := { r.ch with closed := true } })
        with regs := some ((w.regs.getD []).filter (· ≠ id)) }),
      none)
  else (w, none)

/-- `ioutil.ReadAll` driving a reader to its first error: repeatedly run
the fill step and collect `todo` (the caller's buffer is large enough to
drain each fill in one `Read`).  `none` when the fuel runs out or a fill
would block.  When a fill ends with an error, the bytes accumulated
before it are still appended, as `ReadAll` appends `n` bytes before
inspecting `err`. -/
def readAll (oracle : List Bool) : Nat → Reader → Option (List Nat × Option RErr)
  | 0, _ => none
  | fuel + 1, r =>
    match fillTodo oracle r with
    | none => none
    | some (r1, _, some e) => some (r1.todo, some e)
    | some (r1, _, none) =>
      match readAll oracle fuel { r1 with todo := [] } with
      | none => none
      | some (bs, e) => some (r1.todo ++ bs, e)

/-- The externally visible events of one `Tee`'s lifetime: producer
writes, broadcaster close, reader creation, reader close, a `Read` call
(with the caller's buffer length and the select oracle), and the firing
of a reader's cancellation context. -/
inductive Ev where
  | write (p : List Nat)
  | closeT
  | newR (ctxDone : Bool) (lw hw : Nat)
  | rclose (id : Nat)
  | read (id : Nat) (plen : Nat) (oracle : List Bool)
  | cancel (id : Nat)

/-- One event's effect on the world.  A `Read` whose fill would block is
a no-op (the call has not returned). -/
def step (w : World) : Ev → World
  | .write p => (Tee.Write w p).1
  | .closeT => (Tee.Close w).1
  | .newR c lw hw => (Tee.NewReaderContext w c lw hw).1
  | .rclose id => (readerClose w id).1
  | .read id plen oracle =>
    match rread oracle (w.rd id) plen with
    | none => w
    | some (r1, _, _) => w.updReader id (fun _ => r1)
  | .cancel id => w.updReader id (fun r => { r with ctxDone := true })

/-- Run a trace of events. -/
def runW (w : World) : List Ev → World
  | [] => w
  | e :: tr => runW (step w e) tr

/-- Chunks this event dequeues into reader `id`'s `todo`. -/
def evConsumed (w : World) (e : Ev) (id : Nat) : List (List Nat) :=
  match e with
  | .read j _ oracle =>
    if j = id then
      match fillTodo oracle (w.rd id) with
      | none => []
      | some (_, c, _) => c
    else []
  | _ => []

/-- Bytes this event returns to reader `id`'s caller. -/
def evRet (w : World) (e : Ev) (id : Nat) : List Nat :=
  match e with
  | .read j plen oracle =>
    if j = id then
      match rread oracle (w.rd id) plen with
      | none => []
      | some (_, bs, _) => bs
    else []
  | _ => []

/-- Chunks this event writes while reader `id` is registered. -/
def evWritten (w : World) (e : Ev) (id : Nat) : List (List Nat) :=
  match e with
  | .write p => if w.registered id then [p] else []
  | _ => []

/-- All chunks a trace dequeues into reader `id`'s `todo`, in order. -/
def consumedC (w : World) : List Ev → Nat → List (List Nat)
  | [], _ => []
  | e :: tr, id => evConsumed w e id ++ consumedC (step w e) tr id

/-- All bytes a trace returns to reader `id`'s caller, in order. -/
def retB (w : World) : List Ev → Nat → List Nat
  | [], _ => []
  | e :: tr, id => evRet w e id ++ retB (step w e) tr id

/-- All chunks a trace writes while reader `id` is registered, in order. -/
def writtenC (w : World) : List Ev → Nat → List (List Nat)
  | [], _ => []
  | e :: tr, id => evWritten w e id ++ writtenC (step w e) tr id

/-- Scenario A (`TestSmallBuffer`): readers with channel capacities 0, 1
and 2, then writes `[1,2,3]`, `[4,5,6]`, `[7,8,9]`, then `Tee.Close`.
The readers' `lowwater` settings are irrelevant (no read happens before
close) and left as parameters. -/
def scenarioA (lw0 lw1 lw2 : Nat) : World :=
  let w1 := (Tee.NewReader zeroWorld lw0 0).1
  let w2 := (Tee.NewReader w1 lw1 1).1
  let w3 := (Tee.NewReader w2 lw2 2).1
  let w4 := (Tee.Write w3 [1, 2, 3]).1
  let w5 := (Tee.Write w4 [4, 5, 6]).1
  let w6 := (Tee.Write w5 [7, 8, 9]).1
  (Tee.Close w6).1

/-- The `i`-th 3-byte chunk of `TestWriter`:
`[]byte{byte(i), byte(i) + 1, byte(i) + 2}` (Go `byte` wraps mod 256). -/
def chunkB (i : Nat) : List Nat := [i % 256, (i % 256 + 1) % 256, (i % 256 + 2) % 256]

/-- The first `k` iterations of scenario B: write chunk `i`, then create
a fresh reader of capacity 256, for `i = 0 … k-1`. -/
def scenBIter (lw : Nat) : Nat → World
  | 0 => zeroWorld
  | k + 1 => (Tee.NewReader (Tee.Write (scenBIter lw k) (chunkB k)).1 lw 256).1

/-- Scenario B (`TestWriter`): 256 write/new-reader iterations, then
`Tee.Close` (each reader is drained only afterwards; an undrained reader
just leaves its queue intact, so draining order is immaterial). -/
def scenarioB (lw : Nat) : World := (Tee.Close (scenBIter lw 256)).1

/-- The reader states after `k` iterations of scenario B: reader `i`
queues the chunks written after its creation, `i+1 … k-1`. -/
def scenBReader (lw : Nat) (cl : Bool) (k i : Nat) : Reader :=
  { ch := { cap := 256, buf := (List.range' (i + 1) (k - (i + 1))).map chunkB,
            closed := cl },
    todo := [], lowwater := lw, ctxDone := false }

/-- A small concrete lifetime used to exhibit the delivery accounting on
an actual run: create a reader, write one chunk, close, read twice. -/
def c1Trace : List Ev :=
  [Ev.newR false 1 1, Ev.write [7], Ev.closeT, Ev.read 0 8 [], Ev.read 0 8 []]

/-- A two-reader world for exercising `Tee.Write`: reader 0's queue is
full (capacity 1, one chunk queued), reader 1 has room. -/
def c4World : World :=
  { regs := some [0, 1],
    readers :=
      [{ ch := { cap := 1, buf := [[1]], closed := false }, todo := [],
         lowwater := 1, ctxDone := false },
       { ch := { cap := 2, buf := [[1]], closed := false }, todo := [],
         lowwater := 1, ctxDone := false }] }

/-- Well-formedness of a world reachable from `zeroWorld`: the registry
holds no duplicate ids (a Go map visits each key once) and every
registered id denotes an existing reader. -/
def WF (w : World) : Prop :=
  (w.regs.getD []).Nodup ∧ ∀ id ∈ w.regs.getD [], id < w.readers.length

/-! ## Reader-level lemmas -/

lemma fillTarget_pos (r : Reader) : 0 < fillTarget r := by
  unfold fillTarget; split <;> omega

lemma selectRecv_closed_empty (pick : Bool) (r : Reader) (hb : r.ch.buf = [])
    (hc : r.ch.closed = true) (hx : r.ctxDone = false) :
    selectRecv pick r = .chClosed := by
  simp [selectRecv, hb, hc, hx]

lemma selectRecv_chunk_front (pick : Bool) (r : Reader) (b : List Nat)
    (bs : List (List Nat)) (hb : r.ch.buf = b :: bs) (hx : r.ctxDone = false) :
    selectRecv pick r = .chunk b := by
  simp [selectRecv, hb, hx]

lemma selectRecv_ctx_only (pick : Bool) (r : Reader) (hb : r.ch.buf = [])
    (hc : r.ch.closed = false) (hx : r.ctxDone = true) :
    selectRecv pick r = .ctxFired := by
  simp [selectRecv, hb, hc, hx]

lemma selectRecv_blocked (pick : Bool) (r : Reader) (hb : r.ch.buf = [])
    (hc : r.ch.closed = false) (hx : r.ctxDone = false) :
    selectRecv pick r = .blocked := by
  simp [selectRecv, hb, hc, hx]

lemma drainNearFull_of_empty (c : Chan) (hb : c.buf = []) : drainNearFull c = c := by
  unfold drainNearFull
  split
  · cases c; simp_all
  · rfl

lemma drainNearFull_of_not (c : Chan)
    (h : ¬(c.cap > 2 ∧ c.buf.length ≥ c.cap - 1)) : drainNearFull c = c := by
  unfold drainNearFull; exact if_neg h

lemma fillLoop_closed_empty (n : Nat) (hn : 0 < n) (oracle : List Bool)
    (r : Reader) (acc : List (List Nat)) (hb : r.ch.buf = [])
    (hc : r.ch.closed = true) (hx : r.ctxDone = false) :
    fillLoop n oracle r acc = some (r, acc, some .eof) := by
  cases n with
  | zero => omega
  | succ m => simp [fillLoop, selectRecv_closed_empty _ _ hb hc hx]

lemma fillTodo_eofState (oracle : List Bool) (r : Reader) (ht : r.todo = [])
    (hb : r.ch.buf = []) (hc : r.ch.closed = true) (hx : r.ctxDone = false) :
    fillTodo oracle r = some (r, [], some .eof) := by
  unfold fillTodo
  rw [if_neg (by simp [ht])]
  rw [fillLoop_closed_empty _ (fillTarget_pos r) _ _ _ hb hc hx]
  simp [drainNearFull_of_empty _ hb]
  cases r with
  | mk ch todo lw cd => simp_all

lemma fillTodo_canceledState (oracle : List Bool) (r : Reader) (ht : r.todo = [])
    (hb : r.ch.buf = []) (hc : r.ch.closed = false) (hx : r.ctxDone = true) :
    fillTodo oracle r = some (r, [], some .canceled) := by
  unfold fillTodo
  rw [if_neg (by simp [ht])]
  have hn := fillTarget_pos r
  cases hfn : fillTarget r with
  | zero => omega
  | succ m =>
    simp only [fillLoop, selectRecv_ctx_only _ _ hb hc hx]
    simp [drainNearFull_of_empty _ hb]
    cases r with
    | mk ch todo lw cd => simp_all

lemma fillTodo_step_chunk (oracle : List Bool) (r : Reader) (b : List Nat)
    (bs : List (List Nat)) (ht : r.todo = []) (hb : r.ch.buf = b :: bs)
    (hx : r.ctxDone = false) :
    fillTodo oracle r =
      some ({ r with ch := drainNearFull { r.ch with buf := bs }, todo := b },
        [b], none) := by
  unfold fillTodo
  rw [if_neg (by simp [ht])]
  have hfn : fillTarget r = 1 := by simp [fillTarget, hb]
  rw [hfn]
  simp only [fillLoop, selectRecv_chunk_front _ _ _ _ hb hx]
  simp [Reader.deq, hb]

lemma fillTodo_of_todo_ne (oracle : List Bool) (r : Reader) (ht : r.todo ≠ []) :
    fillTodo oracle r = some (r, [], none) := by
  unfold fillTodo; rw [if_pos ht]

lemma readAll_eofState (oracle : List Bool) (fuel : Nat) (hf : 0 < fuel)
    (r : Reader) (ht : r.todo = []) (hb : r.ch.buf = [])
    (hc : r.ch.closed = true) (hx : r.ctxDone = false) :
    readAll oracle fuel r = some ([], some .eof) := by
  cases fuel with
  | zero => omega
  | succ m =>
    unfold readAll
    rw [fillTodo_eofState _ _ ht hb hc hx]
    simp [ht]

/-- Draining a closed, never-near-full reader yields its whole backlog and
then `io.EOF`: the catch-up heuristic never fires when the queue was not
near capacity (capacity at most 2, or occupancy below capacity). -/
lemma readAll_closed_drain (oracle : List Bool) :
    ∀ (L : List (List Nat)) (r : Reader) (fuel : Nat), r.ch.buf = L →
    r.todo = [] → r.ch.closed = true → r.ctxDone = false →
    (r.ch.cap ≤ 2 ∨ r.ch.buf.length < r.ch.cap) →
    r.ch.buf.length < fuel →
    readAll oracle fuel r = some (r.ch.buf.flatten, some .eof) := by
  intro L
  induction L with
  | nil =>
    intro r fuel hL ht hc hx _ hfuel
    rw [hL] at hfuel ⊢
    simp only [List.flatten_nil]
    exact readAll_eofState _ _ (by simpa using hfuel) _ ht hL hc hx
  | cons b bs ih =>
    intro r fuel hL ht hc hx hcap hfuel
    rw [hL] at hfuel hcap ⊢
    cases fuel with
    | zero => simp at hfuel
    | succ m =>
      have hnodrain : ¬({ r.ch with buf := bs }.cap > 2 ∧
          ({ r.ch with buf := bs } : Chan).buf.length ≥
            ({ r.ch with buf := bs } : Chan).cap - 1) := by
        simp only [List.length_cons] at hcap
        rcases hcap with h | h <;> simp <;> omega
      unfold readAll
      rw [fillTodo_step_chunk _ _ _ _ ht hL hx]
      simp only [drainNearFull_of_not _ hnodrain]
      have hrec := ih { r with ch := { r.ch with buf := bs }, todo := ([] : List Nat) }
        m rfl rfl hc hx
        (by rcases hcap with h | h
            · exact Or.inl h
            · refine Or.inr ?_
              simp only [List.length_cons] at h
              simpa using Nat.lt_of_succ_lt h)
        (by simpa using Nat.lt_of_succ_lt_succ hfuel)
      simp only at hrec
      -- the recursive call starts from the reader with `todo` cleared
      simp [hrec]

/-- The world after scenario A's three reader creations, three writes and
close: the capacity-0 queue dropped every chunk, the capacity-1 queue
holds the first chunk, the capacity-2 queue holds the first two. -/
lemma scenarioA_state (lw0 lw1 lw2 : Nat) : scenarioA lw0 lw1 lw2 =
    { regs := none,
      readers := [
        { ch := { cap := 0, buf := [], closed := true }, todo := [],
          lowwater := lw0, ctxDone := false },
        { ch := { cap := 1, buf := [[1, 2, 3]], closed := true }, todo := [],
          lowwater := lw1, ctxDone := false },
        { ch := { cap := 2, buf := [[1, 2, 3], [4, 5, 6]], closed := true }, todo := [],
          lowwater := lw2, ctxDone := false }] } := by
  simp [scenarioA, Tee.NewReader, Tee.NewReaderContext, Tee.Write, Tee.Close,
    zeroWorld, World.updReader, World.rd, Chan.trySend]

/-! ## Registry fold lemmas

`Tee.Write` and `Tee.Close` fold a per-reader update over the registered
ids.  The lemmas below express the fold pointwise. -/

lemma updReader_regs (w : World) (i : Nat) (f : Reader → Reader) :
    (w.updReader i f).regs = w.regs := rfl

lemma updReader_length (w : World) (i : Nat) (f : Reader → Reader) :
    (w.updReader i f).readers.length = w.readers.length := by
  simp [World.updReader]

lemma updReader_rd_ne (w : World) (i j : Nat) (f : Reader → Reader) (h : j ≠ i) :
    (w.updReader i f).rd j = w.rd j := by
  simp [World.updReader, World.rd, List.getD_eq_getElem?_getD,
    List.getElem?_set_ne (Ne.symm h)]

lemma updReader_rd_self (w : World) (i : Nat) (f : Reader → Reader)
    (h : i < w.readers.length) : (w.updReader i f).rd i = f (w.rd i) := by
  simp [World.updReader, World.rd, List.getD_eq_getElem?_getD,
    List.getElem?_set_eq_of_lt _ h, List.getElem?_eq_getElem h]

lemma updReader_rd_oob (w : World) (i : Nat) (f : Reader → Reader)
    (h : ¬ i < w.readers.length) : (w.updReader i f).rd i = w.rd i := by
  simp only [World.updReader, World.rd, List.getD_eq_getElem?_getD]
  rw [List.getElem?_eq_none (by simp; omega), List.getElem?_eq_none (by omega)]

lemma updReader_rd (w : World) (i j : Nat) (f : Reader → Reader) :
    (w.updReader i f).rd j =
      if j = i ∧ j < w.readers.length then f (w.rd j) else w.rd j := by
  by_cases hj : j = i
  · subst hj
    by_cases hl : j < w.readers.length
    · simp [hl, updReader_rd_self]
    · simp [hl, updReader_rd_oob _ _ _ hl]
  · simp [hj, updReader_rd_ne _ _ _ _ hj]

lemma foldlUpd_regs (ids : List Nat) (f : Reader → Reader) (w : World) :
    (ids.foldl (fun acc id => acc.updReader id f) w).regs = w.regs := by
  induction ids generalizing w with
  | nil => rfl
  | cons i ids ih => simp [List.foldl_cons, ih, updReader_regs]

lemma foldlUpd_length (ids : List Nat) (f : Reader → Reader) (w : World) :
    (ids.foldl (fun acc id => acc.updReader id f) w).readers.length =
      w.readers.length := by
  induction ids generalizing w with
  | nil => rfl
  | cons i ids ih => simp [List.foldl_cons, ih, updReader_length]

lemma foldlUpd_rd (ids : List Nat) (f : Reader → Reader) (w : World) (j : Nat)
    (hnd : ids.Nodup) :
    (ids.foldl (fun acc id => acc.updReader id f) w).rd j =
      if j ∈ ids ∧ j < w.readers.length then f (w.rd j) else w.rd j := by
  induction ids generalizing w with
  | nil => simp
  | cons i ids ih =>
    simp only [List.nodup_cons] at hnd
    rw [List.foldl_cons, ih _ hnd.2, updReader_length, updReader_rd]
    by_cases hji : j = i
    · subst hji
      have : j ∉ ids := hnd.1
      by_cases hl : j < w.readers.length <;> simp [this, hl]
    · by_cases hm : j ∈ ids <;> simp [hji, hm]

/-! ## World-operation lemmas -/

lemma write_world_regs (w : World) (p : List Nat) :
    (Tee.Write w p).1.regs = w.regs := foldlUpd_regs _ _ _

lemma write_world_length (w : World) (p : List Nat) :
    (Tee.Write w p).1.readers.length = w.readers.length := foldlUpd_length _ _ _

lemma write_world_rd (w : World) (p : List Nat) (j : Nat)
    (hnd : (w.regs.getD []).Nodup) :
    (Tee.Write w p).1.rd j =
      if w.registered j ∧ j < w.readers.length
      then { w.rd j with ch := (w.rd j).ch.trySend p } else w.rd j :=
  foldlUpd_rd _ _ _ _ hnd

lemma close_world_regs (w : World) : (Tee.Close w).1.regs = none := rfl

lemma close_world_length (w : World) :
    (Tee.Close w).1.readers.length = w.readers.length := foldlUpd_length _ _ _

lemma close_world_rd (w : World) (j : Nat) (hnd : (w.regs.getD []).Nodup) :
    (Tee.Close w).1.rd j =
      if w.registered j ∧ j < w.readers.length
      then { w.rd j with ch := { (w.rd j).ch with closed := true } } else w.rd j := by
  have h := foldlUpd_rd (w.regs.getD [])
    (fun r => { r with ch := { r.ch with closed := true } }) w j hnd
  simpa [Tee.Close, World.rd, World.registered] using h

lemma newReader_world_rd (w : World) (c : Bool) (lw hw : Nat) (j : Nat) :
    (Tee.NewReaderContext w c lw hw).1.rd j =
      if j = w.readers.length
      then { ch := { cap := hw, buf := [], closed := false }, todo := [],
             lowwater := lw, ctxDone := c }
      else w.rd j := by
  simp only [Tee.NewReaderContext, World.rd, List.getD_eq_getElem?_getD]
  by_cases hj : j = w.readers.length
  · subst hj
    rw [List.getElem?_append_right (by omega)]
    simp
  · by_cases hl : j < w.readers.length
    · simp [List.getElem?_append, hl, hj]
    · rw [List.getElem?_eq_none (by simp; omega), List.getElem?_eq_none (by omega)]
      simp [hj]

lemma newReader_world_regs (w : World) (c : Bool) (lw hw : Nat) :
    (Tee.NewReaderContext w c lw hw).1.regs =
      some (w.regs.getD [] ++ [w.readers.length]) := rfl

lemma newReader_world_length (w : World) (c : Bool) (lw hw : Nat) :
    (Tee.NewReaderContext w c lw hw).1.readers.length = w.readers.length + 1 := by
  simp [Tee.NewReaderContext]

lemma readerClose_world_rd (w : World) (i j : Nat) :
    (readerClose w i).1.rd j =
      if w.registered i ∧ j = i ∧ j < w.readers.length
      then { w.rd j with ch := { (w.rd j).ch with closed := true } } else w.rd j := by
  unfold readerClose
  by_cases hreg : w.registered i
  · simp only [if_pos hreg]
    have : ({ w.updReader i (fun r => { r with ch := { r.ch with closed := true } })
        with regs := some ((w.regs.getD []).filter (· ≠ i)) } : World).rd j =
        (w.updReader i (fun r => { r with ch := { r.ch with closed := true } })).rd j := rfl
    rw [this, updReader_rd]
    by_cases hji : j = i <;> simp [hreg, hji]
  · simp [hreg]

lemma readerClose_world_length (w : World) (i : Nat) :
    (readerClose w i).1.readers.length = w.readers.length := by
  unfold readerClose
  by_cases hreg : w.registered i
  · simp only [if_pos hreg]
    exact updReader_length _ _ _
  · simp [hreg]

lemma readerClose_world_regs (w : World) (i : Nat) :
    (readerClose w i).1.regs =
      if w.registered i then some ((w.regs.getD []).filter (· ≠ i)) else w.regs := by
  unfold readerClose
  by_cases hreg : w.registered i <;> simp [hreg]

/-! ## Fill-algorithm specification -/

lemma selectRecv_chunk_inv (pick : Bool) (r : Reader) (b : List Nat)
    (h : selectRecv pick r = .chunk b) : ∃ bs, r.ch.buf = b :: bs := by
  unfold selectRecv at h
  cases hbuf : r.ch.buf with
  | nil =>
    rw [hbuf] at h
    cases hcl : r.ch.closed <;> cases hcd : r.ctxDone <;> cases pick <;> simp_all
  | cons b' bs =>
    rw [hbuf] at h
    cases hcl : r.ch.closed <;> cases hcd : r.ctxDone <;> cases pick <;> simp_all

lemma fillLoop_spec :
    ∀ (n : Nat) (oracle : List Bool) (r : Reader) (acc acc1 : List (List Nat))
    (r1 : Reader) (err : Option RErr),
    fillLoop n oracle r acc = some (r1, acc1, err) →
    ∃ c, acc1 = acc ++ c ∧ r.ch.buf = c ++ r1.ch.buf ∧
      r1 = { r with ch := { r.ch with buf := r1.ch.buf } } := by
  intro n
  induction n with
  | zero =>
    intro oracle r acc acc1 r1 err h
    simp only [fillLoop, Option.some.injEq, Prod.mk.injEq] at h
    obtain ⟨h1, h2, _⟩ := h
    subst h1; subst h2
    exact ⟨[], by simp⟩
  | succ m ih =>
    intro oracle r acc acc1 r1 err h
    simp only [fillLoop] at h
    cases hsel : selectRecv (oracle.headD true) r with
    | chunk b =>
      rw [hsel] at h
      obtain ⟨bs, hbuf⟩ := selectRecv_chunk_inv _ _ _ hsel
      obtain ⟨c', hc1, hc2, hc3⟩ := ih oracle.tail r.deq (acc ++ [b]) acc1 r1 err h
      refine ⟨b :: c', by simpa using hc1, ?_, ?_⟩
      · have hdq : r.deq.ch.buf = bs := by simp [Reader.deq, hbuf]
        rw [hdq] at hc2
        rw [hbuf, hc2]
        simp
      · conv_lhs => rw [hc3]
        simp [Reader.deq]
    | chClosed =>
      rw [hsel] at h
      simp only [Option.some.injEq, Prod.mk.injEq] at h
      obtain ⟨h1, h2, _⟩ := h
      subst h1; subst h2
      exact ⟨[], by simp⟩
    | ctxFired =>
      rw [hsel] at h
      simp only [Option.some.injEq, Prod.mk.injEq] at h
      obtain ⟨h1, h2, _⟩ := h
      subst h1; subst h2
      exact ⟨[], by simp⟩
    | blocked => rw [hsel] at h; simp at h

lemma fillTodo_spec (oracle : List Bool) (r r1 : Reader) (c : List (List Nat))
    (err : Option RErr) (h : fillTodo oracle r = some (r1, c, err)) :
    (c ++ r1.ch.buf).Sublist r.ch.buf ∧ r1.todo = r.todo ++ c.flatten := by
  unfold fillTodo at h
  by_cases ht : r.todo ≠ []
  · rw [if_pos ht] at h
    simp only [Option.some.injEq, Prod.mk.injEq] at h
    obtain ⟨h1, h2, _⟩ := h
    subst h1; subst h2
    simp
  · rw [if_neg ht] at h
    push_neg at ht
    cases hloop : fillLoop (fillTarget r) oracle r [] with
    | none => rw [hloop] at h; simp at h
    | some out =>
      obtain ⟨rm, accm, errm⟩ := out
      rw [hloop] at h
      simp only [Option.some.injEq, Prod.mk.injEq] at h
      obtain ⟨h1, h2, h3⟩ := h
      obtain ⟨cc, hc1, hc2, _⟩ := fillLoop_spec _ _ _ _ _ _ _ hloop
      simp only [List.nil_append] at hc1
      subst hc1; subst h2
      constructor
      · rw [← h1]
        simp only
        unfold drainNearFull
        split
        · rw [hc2]
          simp only [List.append_nil]
          exact List.sublist_append_left _ _
        · rw [hc2]
      · rw [← h1]
        simp [ht]

lemma fillTodo_default_none (oracle : List Bool) :
    fillTodo oracle (default : Reader) = none := rfl

/-! ## Well-formedness preservation -/

lemma WF_zeroWorld : WF zeroWorld := by
  constructor <;> simp [zeroWorld]

lemma WF_step (w : World) (e : Ev) (h : WF w) : WF (step w e) := by
  obtain ⟨hnd, hbd⟩ := h
  cases e with
  | write p =>
    refine ⟨?_, ?_⟩
    · rw [step, write_world_regs]; exact hnd
    · rw [step, write_world_regs, write_world_length]; exact hbd
  | closeT =>
    refine ⟨?_, ?_⟩ <;> rw [step, close_world_regs] <;> simp
  | newR c lw hw =>
    refine ⟨?_, ?_⟩
    · rw [step, newReader_world_regs]
      simp only [Option.getD_some, List.nodup_append]
      refine ⟨hnd, List.nodup_singleton _, ?_⟩
      intro a ha
      simp only [List.mem_singleton]
      intro hEq
      subst hEq
      exact absurd (hbd _ ha) (by omega)
    · rw [step, newReader_world_regs, newReader_world_length]
      intro id hid
      simp only [Option.getD_some, List.mem_append, List.mem_singleton] at hid
      rcases hid with hid | hid
      · exact Nat.lt_succ_of_lt (hbd id hid)
      · subst hid; omega
  | rclose i =>
    refine ⟨?_, ?_⟩
    · rw [step, readerClose_world_regs]
      split
      · simpa using hnd.filter _
      · exact hnd
    · rw [step, readerClose_world_regs, readerClose_world_length]
      split
      · intro id hid
        simp only [Option.getD_some, List.mem_filter] at hid
        exact hbd id hid.1
      · exact hbd
  | read id plen oracle =>
    simp only [step]
    cases hr : rread oracle (w.rd id) plen with
    | none => exact ⟨hnd, hbd⟩
    | some out =>
      refine ⟨?_, ?_⟩
      · rw [updReader_regs]; exact hnd
      · rw [updReader_regs, updReader_length]; exact hbd
  | cancel i =>
    refine ⟨?_, ?_⟩
    · rw [step, updReader_regs]; exact hnd
    · rw [step, updReader_regs, updReader_length]; exact hbd

lemma rd_oob (w : World) (id : Nat) (h : ¬ id < w.readers.length) :
    w.rd id = default := by
  simp only [World.rd, List.getD_eq_getElem?_getD]
  rw [List.getElem?_eq_none (by omega)]
  rfl

/-! ## Per-event step lemmas for the delivery accounting -/

/-- One step moves each reader's queue only in allowed ways: chunks it
consumes come off the front, writes append at most one chunk counted by
`evWritten`, and everything else leaves the queue alone. -/
lemma step_buf (w : World) (e : Ev) (id : Nat) (hwf : WF w) :
    (evConsumed w e id ++ ((step w e).rd id).ch.buf).Sublist
      ((w.rd id).ch.buf ++ evWritten w e id) := by
  cases e with
  | write p =>
    simp only [evConsumed, evWritten, step]
    rw [write_world_rd _ _ _ hwf.1]
    by_cases hreg : w.registered id
    · have hlen : id < w.readers.length := hwf.2 id hreg
      simp only [hreg, hlen, and_self, if_true, if_pos]
      unfold Chan.trySend
      split
      · simp
      · simp only [List.nil_append]
        exact List.sublist_append_left _ _
    · simp [hreg]
  | closeT =>
    simp only [evConsumed, evWritten, step]
    rw [close_world_rd _ _ hwf.1]
    split <;> simp
  | newR c lw hw =>
    simp only [evConsumed, evWritten, step]
    rw [newReader_world_rd]
    split
    · rename_i hid
      rw [rd_oob w id (by omega)]
      simp [default]
    · simp
  | rclose i =>
    simp only [evConsumed, evWritten, step]
    rw [readerClose_world_rd]
    split <;> simp
  | cancel i =>
    simp only [evConsumed, evWritten, step]
    rw [updReader_rd]
    split <;> simp
  | read j plen oracle =>
    by_cases hj : j = id
    · subst hj
      simp only [evConsumed, evWritten, step, if_pos rfl]
      cases hfill : fillTodo oracle (w.rd j) with
      | none => simp [rread, hfill]
      | some out =>
        obtain ⟨r1, c, err⟩ := out
        by_cases hlen : j < w.readers.length
        · simp only [rread, hfill]
          rw [updReader_rd_self _ _ _ hlen]
          simpa using (fillTodo_spec _ _ _ _ _ hfill).1
        · rw [rd_oob w j hlen] at hfill
          rw [fillTodo_default_none] at hfill
          simp at hfill
    · simp only [evConsumed, evWritten, step, if_neg hj]
      cases hr : rread oracle (w.rd j) plen with
      | none => simp
      | some out =>
        rw [updReader_rd_ne _ _ _ _ (fun hEq => hj hEq.symm)]
        simp

/-- One step's effect on a reader's `todo` bytes: the bytes handed to the
caller plus the bytes still pending equal the old pending bytes plus the
concatenation of the chunks this step consumed. -/
lemma step_todo (w : World) (e : Ev) (id : Nat) (hwf : WF w) :
    evRet w e id ++ ((step w e).rd id).todo =
      (w.rd id).todo ++ (evConsumed w e id).flatten := by
  cases e with
  | write p =>
    simp only [evRet, evConsumed, step]
    rw [write_world_rd _ _ _ hwf.1]
    split <;> simp
  | closeT =>
    simp only [evRet, evConsumed, step]
    rw [close_world_rd _ _ hwf.1]
    split <;> simp
  | newR c lw hw =>
    simp only [evRet, evConsumed, step]
    rw [newReader_world_rd]
    split
    · rename_i hid
      rw [rd_oob w id (by omega)]
      simp [default]
    · simp
  | rclose i =>
    simp only [evRet, evConsumed, step]
    rw [readerClose_world_rd]
    split <;> simp
  | cancel i =>
    simp only [evRet, evConsumed, step]
    rw [updReader_rd]
    split <;> simp
  | read j plen oracle =>
    by_cases hj : j = id
    · subst hj
      simp only [evRet, evConsumed, step, if_pos rfl]
      cases hfill : fillTodo oracle (w.rd j) with
      | none => simp [rread, hfill]
      | some out =>
        obtain ⟨r1, c, err⟩ := out
        by_cases hlen : j < w.readers.length
        · simp only [rread, hfill]
          rw [updReader_rd_self _ _ _ hlen]
          simp only [if_true, List.take_append_drop]
          exact (fillTodo_spec _ _ _ _ _ hfill).2
        · rw [rd_oob w j hlen] at hfill
          rw [fillTodo_default_none] at hfill
          simp at hfill
    · simp only [evRet, evConsumed, step, if_neg hj]
      cases hr : rread oracle (w.rd j) plen with
      | none => simp
      | some out =>
        rw [updReader_rd_ne _ _ _ _ (fun hEq => hj hEq.symm)]
        simp

/-! ## Trace invariants -/

/-- The chunks a trace delivers to a reader, followed by what is still
queued, form a subsequence of what was queued initially followed by the
chunks written while the reader was registered. -/
lemma consumed_buf_sublist (tr : List Ev) :
    ∀ (w : World) (id : Nat), WF w →
    (consumedC w tr id ++ ((runW w tr).rd id).ch.buf).Sublist
      ((w.rd id).ch.buf ++ writtenC w tr id) := by
  induction tr with
  | nil =>
    intro w id _
    simp [consumedC, writtenC, runW]
  | cons e tr ih =>
    intro w id hwf
    have hstep := step_buf w e id hwf
    have hih := ih (step w e) id (WF_step w e hwf)
    have h2 := hih.append_left (evConsumed w e id)
    have h3 := hstep.append_right (writtenC (step w e) tr id)
    simp only [List.append_assoc] at h2 h3
    have hgoal : consumedC w (e :: tr) id ++ ((runW w (e :: tr)).rd id).ch.buf =
        evConsumed w e id ++
          (consumedC (step w e) tr id ++ ((runW (step w e) tr).rd id).ch.buf) := by
      simp [consumedC, runW]
    have hw : writtenC w (e :: tr) id =
        evWritten w e id ++ writtenC (step w e) tr id := by
      simp [writtenC]
    rw [hgoal, hw]
    exact h2.trans h3

/-- The bytes a trace hands back to a reader's caller, followed by the
bytes still pending, equal the initially pending bytes followed by the
concatenation of every chunk the trace consumed for that reader. -/
lemma ret_todo_flatten (tr : List Ev) :
    ∀ (w : World) (id : Nat), WF w →
    retB w tr id ++ ((runW w tr).rd id).todo =
      (w.rd id).todo ++ (consumedC w tr id).flatten := by
  induction tr with
  | nil =>
    intro w id _
    simp [retB, consumedC, runW]
  | cons e tr ih =>
    intro w id hwf
    have hstep := step_todo w e id hwf
    have hih := ih (step w e) id (WF_step w e hwf)
    calc retB w (e :: tr) id ++ ((runW w (e :: tr)).rd id).todo
        = evRet w e id ++
            (retB (step w e) tr id ++ ((runW (step w e) tr).rd id).todo) := by
          simp [retB, runW]
      _ = evRet w e id ++
            (((step w e).rd id).todo ++ (consumedC (step w e) tr id).flatten) := by
          rw [hih]
      _ = (evRet w e id ++ ((step w e).rd id).todo) ++
            (consumedC (step w e) tr id).flatten := by simp
      _ = ((w.rd id).todo ++ (evConsumed w e id).flatten) ++
            (consumedC (step w e) tr id).flatten := by rw [hstep]
      _ = (w.rd id).todo ++ (consumedC w (e :: tr) id).flatten := by
          simp [consumedC]

/-! ## Scenario B state lemmas -/

lemma rd_eq_getElem (w : World) (j : Nat) (h : j < w.readers.length) :
    w.rd j = w.readers[j] := by
  simp [World.rd, List.getD_eq_getElem?_getD, List.getElem?_eq_getElem h]

lemma flatten_map_chunkB (l : List Nat) :
    ((l.map chunkB).flatten).length = 3 * l.length := by
  induction l with
  | nil => simp
  | cons i l ih =>
    simp only [List.map_cons, List.flatten_cons, List.length_append, ih,
      List.length_cons, chunkB, List.length_nil]
    omega

lemma rd_map_range (w : World) (k j : Nat) (f : Nat → Reader) (hj : j < k)
    (h : w.readers = (List.range k).map f) : w.rd j = f j := by
  simp only [World.rd, h, List.getD_eq_getElem?_getD, List.getElem?_map]
  rw [List.getElem?_range hj]
  rfl

lemma scenBIter_spec (lw : Nat) :
    ∀ k, k ≤ 256 →
    (scenBIter lw k).regs.getD [] = List.range k ∧
    (scenBIter lw k).readers = (List.range k).map (scenBReader lw false k) := by
  intro k
  induction k with
  | zero => intro _; simp [scenBIter, zeroWorld]
  | succ k ih =>
    intro hk
    obtain ⟨ihr, ihl⟩ := ih (by omega)
    have hlen : (scenBIter lw k).readers.length = k := by
      rw [ihl]; simp
    have hwlen : (Tee.Write (scenBIter lw k) (chunkB k)).1.readers.length = k := by
      rw [write_world_length, hlen]
    -- the k-th write appends `chunkB k` to every queue (none is full)
    have hwreaders : (Tee.Write (scenBIter lw k) (chunkB k)).1.readers =
        (List.range k).map (scenBReader lw false (k + 1)) := by
      apply List.ext_getElem (by rw [hwlen]; simp)
      intro j h1 h2
      have hj : j < k := by rw [hwlen] at h1; exact h1
      have hrd := write_world_rd (scenBIter lw k) (chunkB k) j
        (by rw [ihr]; exact List.nodup_range k)
      have hreg : (scenBIter lw k).registered j := by
        rw [World.registered, ihr]; exact List.mem_range.mpr hj
      rw [if_pos ⟨hreg, by omega⟩] at hrd
      have hrdj : (scenBIter lw k).rd j = scenBReader lw false k j :=
        rd_map_range _ k j _ hj ihl
      rw [← rd_eq_getElem _ _ h1, hrd, hrdj]
      have happ : (List.range' (j + 1) (k - (j + 1))).map chunkB ++ [chunkB k] =
          (List.range' (j + 1) (k + 1 - (j + 1))).map chunkB := by
        have hsub : k + 1 - (j + 1) = (k - (j + 1)) + 1 := by omega
        rw [hsub, List.range'_concat]
        simp only [List.map_append, List.map_cons, List.map_nil]
        congr 3
        omega
      simp only [List.getElem_map, List.getElem_range]
      simp only [scenBReader, Chan.trySend]
      rw [if_pos (by simp only [List.length_map, List.length_range']; omega)]
      simp only [happ]
    constructor
    · simp only [scenBIter, Tee.NewReader, newReader_world_regs]
      rw [write_world_regs, hwlen]
      simp only [Option.getD_some]
      rw [ihr, List.range_succ]
    · simp only [scenBIter, Tee.NewReader, Tee.NewReaderContext]
      rw [hwreaders, List.range_succ, List.map_append]
      congr 1
      simp only [List.map_cons, List.map_nil]
      congr 2
      simp [scenBReader, Nat.sub_self]

lemma scenarioB_rd (lw i : Nat) (hi : i < 256) :
    (scenarioB lw).rd i = scenBReader lw true 256 i := by
  obtain ⟨hr, hl⟩ := scenBIter_spec lw 256 le_rfl
  have hlen : (scenBIter lw 256).readers.length = 256 := by rw [hl]; simp
  have hnd : ((scenBIter lw 256).regs.getD []).Nodup := by
    rw [hr]; exact List.nodup_range 256
  have hreg : (scenBIter lw 256).registered i := by
    rw [World.registered, hr]; exact List.mem_range.mpr hi
  have hrd := close_world_rd (scenBIter lw 256) i hnd
  rw [if_pos ⟨hreg, by omega⟩] at hrd
  have hold : (scenBIter lw 256).rd i = scenBReader lw false 256 i :=
    rd_map_range _ 256 i _ hi hl
  rw [scenarioB, hrd, hold]
  simp [scenBReader]

lemma selectRecv_lowwater (pick : Bool) (r : Reader) (a : Nat) :
    selectRecv pick { r with lowwater := a } = selectRecv pick r := rfl

lemma fillLoop_lowwater (n : Nat) :
    ∀ (oracle : List Bool) (r : Reader) (acc : List (List Nat)) (a : Nat),
    fillLoop n oracle { r with lowwater := a } acc =
      (fillLoop n oracle r acc).map
        (fun x => ({ x.1 with lowwater := a }, x.2)) := by
  induction n with
  | zero => intro oracle r acc a; simp [fillLoop]
  | succ m ih =>
    intro oracle r acc a
    simp only [fillLoop, selectRecv_lowwater]
    cases hsel : selectRecv (oracle.headD true) r with
    | chunk b =>
      dsimp only
      exact ih oracle.tail r.deq (acc ++ [b]) a
    | chClosed => simp
    | ctxFired => simp
    | blocked => simp

/-! ## Claim theorems -/

/-- C1: For every reader, the concatenation of bytes it returns across
all reads equals the concatenation of a subsequence of the chunks written
while it was registered (here: the chunks the reader consumed, which form
a `Sublist` of the registered-interval writes — order preserved, each
chunk whole or absent, never duplicated).  When the reader has drained its
pending bytes (read until end-of-stream), the returned bytes are exactly
that concatenation. -/
theorem C1_reader_subsequence (tr : List Ev) (id : Nat) :
    (consumedC zeroWorld tr id).Sublist (writtenC zeroWorld tr id) ∧
    retB zeroWorld tr id ++ ((runW zeroWorld tr).rd id).todo =
      (consumedC zeroWorld tr id).flatten ∧
    (((runW zeroWorld tr).rd id).todo = [] →
      retB zeroWorld tr id = (consumedC zeroWorld tr id).flatten) := by
  have hz : zeroWorld.rd id = default := rd_oob _ _ (by simp [zeroWorld])
  have hA := consumed_buf_sublist tr zeroWorld id WF_zeroWorld
  have hB := ret_todo_flatten tr zeroWorld id WF_zeroWorld
  rw [hz] at hA hB
  have hbuf : (default : Reader).ch.buf = [] := rfl
  have htodo : (default : Reader).todo = [] := rfl
  rw [hbuf] at hA
  rw [htodo] at hB
  simp only [List.nil_append] at hA hB
  refine ⟨(List.sublist_append_left _ _).trans hA, hB, ?_⟩
  intro h
  rw [h] at hB
  simpa using hB

/-- Witness for C1 on a concrete lifetime: one reader, one write, close,
two reads; the reader ends drained and its returned bytes are the
concatenation of the chunks it consumed. -/
theorem C1_reader_subsequence_witness :
    ((runW zeroWorld c1Trace).rd 0).todo = [] ∧
    retB zeroWorld c1Trace 0 = (consumedC zeroWorld c1Trace 0).flatten :=
  ⟨by decide, (C1_reader_subsequence c1Trace 0).2.2 (by decide)⟩

/-- C2: what the code actually produces in scenario A, for any `lowwater`
settings and select oracle.  The capacity-0 reader drains to nothing and
the capacity-1 reader to `[1,2,3]`, as the claim says; but the capacity-2
reader drains to `[1,2,3,4,5,6]`, not `[1,2,3]`: its queue held the first
two chunks and the catch-up heuristic is gated on `cap(r.ch) > 2`, so it
never fires at capacity 2.  This contradicts the claim and the repository's
own `TestSmallBuffer` expectation of `[1,2,3]`. -/
theorem C2_scenarioA_code_result (lw0 lw1 lw2 : Nat) (oracle : List Bool) :
    readAll oracle 1 ((scenarioA lw0 lw1 lw2).rd 0) = some ([], some .eof) ∧
    readAll oracle 2 ((scenarioA lw0 lw1 lw2).rd 1) = some ([1, 2, 3], some .eof) ∧
    readAll oracle 3 ((scenarioA lw0 lw1 lw2).rd 2) =
      some ([1, 2, 3, 4, 5, 6], some .eof) := by
  rw [scenarioA_state]
  refine ⟨?_, ?_, ?_⟩
  · exact readAll_eofState _ _ (by omega) _ rfl rfl rfl rfl
  · have h := readAll_closed_drain oracle [[1, 2, 3]]
      { ch := { cap := 1, buf := [[1, 2, 3]], closed := true }, todo := [],
        lowwater := lw1, ctxDone := false } 2 rfl rfl rfl rfl (by simp) (by simp)
    simpa [World.rd] using h
  · have h := readAll_closed_drain oracle [[1, 2, 3], [4, 5, 6]]
      { ch := { cap := 2, buf := [[1, 2, 3], [4, 5, 6]], closed := true }, todo := [],
        lowwater := lw2, ctxDone := false } 3 rfl rfl rfl rfl (by simp) (by simp)
    simpa [World.rd] using h

/-- C3 counterexample: create a reader, `Close` the broadcaster, then
create a second reader (id 1) and write `[5]`.  Draining the post-`Close`
reader yields the byte 5 — a reader registered after `Close` does receive
chunks from subsequent writes, because `Close` only sets the registry to
`nil` and `NewReaderContext` re-allocates it. -/
theorem C3_counterexample :
    readAll [] 2 ((Tee.Close (Tee.Write (Tee.NewReaderContext
      (Tee.Close (Tee.NewReader zeroWorld 1 1).1).1 false 1 1).1 [5]).1).1.rd 1) =
      some ([5], some .eof) := by decide

/-- C3 amended: after the broadcaster's `Close()` (registry `nil`), a
reader created by a subsequent `NewReader`/`NewReaderContext` call is
registered in a freshly allocated registry and does receive a subsequent
write (here: any chunk `p`, with any positive queue capacity).  The
broadcaster is reusable; a fresh instance is not required. -/
theorem C3_new_reader_after_close_receives (w : World) (hregs : w.regs = none)
    (c : Bool) (lw hw : Nat) (hhw : 0 < hw) (p : List Nat) :
    ((Tee.Write (Tee.NewReaderContext w c lw hw).1 p).1.rd
      (Tee.NewReaderContext w c lw hw).2).ch.buf = [p] := by
  have hid : (Tee.NewReaderContext w c lw hw).2 = w.readers.length := rfl
  have hw1regs : (Tee.NewReaderContext w c lw hw).1.regs =
      some [w.readers.length] := by
    rw [newReader_world_regs, hregs]
    rfl
  have hnd : (((Tee.NewReaderContext w c lw hw).1.regs.getD []) : List Nat).Nodup := by
    rw [hw1regs]; simp
  have hrd := write_world_rd (Tee.NewReaderContext w c lw hw).1 p
    w.readers.length hnd
  have hreg : (Tee.NewReaderContext w c lw hw).1.registered w.readers.length := by
    rw [World.registered, hw1regs]; simp
  have hlen : w.readers.length < (Tee.NewReaderContext w c lw hw).1.readers.length := by
    rw [newReader_world_length]; omega
  rw [if_pos ⟨hreg, hlen⟩] at hrd
  have hfresh : (Tee.NewReaderContext w c lw hw).1.rd w.readers.length =
      { ch := { cap := hw, buf := [], closed := false }, todo := [],
        lowwater := lw, ctxDone := c } := by
    rw [newReader_world_rd]
    simp
  rw [hid, hrd, hfresh]
  simp [Chan.trySend, hhw]

/-- Witness for C3's amended statement: instantiated after a concrete
`Close` with capacity 1 and chunk `[9]`. -/
theorem C3_new_reader_after_close_receives_witness :
    (Tee.Close zeroWorld).1.regs = none ∧ 0 < 1 ∧
    ((Tee.Write (Tee.NewReaderContext (Tee.Close zeroWorld).1 false 1 1).1 [9]).1.rd
      (Tee.NewReaderContext (Tee.Close zeroWorld).1 false 1 1).2).ch.buf = [[9]] :=
  ⟨by decide, by decide,
    C3_new_reader_after_close_receives _ (by decide) false 1 1 (by decide) [9]⟩

/-- C4: `Tee.Write` always returns `(len(p), nil)`; a registered reader
whose queue has room gets the chunk appended, a registered reader whose
queue is full keeps exactly its old state (the chunk is dropped for it
alone, with no error), and unregistered readers are untouched — so no
reader's outcome affects any other's. -/
theorem C4_write_never_fails (w : World) (p : List Nat)
    (hnd : (w.regs.getD []).Nodup) :
    (Tee.Write w p).2.1 = p.length ∧ (Tee.Write w p).2.2 = none ∧
    (∀ id, (Tee.Write w p).1.rd id =
      if w.registered id ∧ id < w.readers.length ∧
          (w.rd id).ch.buf.length < (w.rd id).ch.cap
      then { w.rd id with ch :=
        { (w.rd id).ch with buf := (w.rd id).ch.buf ++ [p] } }
      else w.rd id) := by
  refine ⟨rfl, rfl, ?_⟩
  intro id
  rw [write_world_rd _ _ _ hnd]
  by_cases h1 : w.registered id ∧ id < w.readers.length
  · rw [if_pos h1]
    unfold Chan.trySend
    by_cases h2 : (w.rd id).ch.buf.length < (w.rd id).ch.cap
    · rw [if_pos h2, if_pos ⟨h1.1, h1.2, h2⟩]
    · rw [if_neg h2, if_neg (by tauto)]
  · rw [if_neg h1, if_neg (by tauto)]

/-- Witness for C4 on `c4World`: the write reports full success, drops for
the full reader 0 only, and delivers to reader 1. -/
theorem C4_write_never_fails_witness :
    (c4World.regs.getD []).Nodup ∧
    (∀ id, (Tee.Write c4World [9]).1.rd id =
      if c4World.registered id ∧ id < c4World.readers.length ∧
          (c4World.rd id).ch.buf.length < (c4World.rd id).ch.cap
      then { c4World.rd id with ch :=
        { (c4World.rd id).ch with buf := (c4World.rd id).ch.buf ++ [[9]] } }
      else c4World.rd id) :=
  ⟨by decide, (C4_write_never_fails c4World [9] (by decide)).2.2⟩

/-- C5: after the accumulation loop, `fillTodo` applies the catch-up step
to the loop's resulting channel, and that step empties the queued backlog
if and only if the capacity exceeds 2 and the occupancy is at least
capacity minus 1; otherwise it leaves the channel exactly as it was
(capacity and closed flag are never touched). -/
theorem C5_catchup_heuristic (c : Chan) :
    ((drainNearFull c).buf =
      if c.cap > 2 ∧ c.buf.length ≥ c.cap - 1 then [] else c.buf) ∧
    (drainNearFull c).cap = c.cap ∧ (drainNearFull c).closed = c.closed ∧
    (∀ (oracle : List Bool) (r r1 : Reader) (acc : List (List Nat))
      (err : Option RErr), r.todo = [] →
      fillLoop (fillTarget r) oracle r [] = some (r1, acc, err) →
      fillTodo oracle r =
        some ({ r1 with ch := drainNearFull r1.ch, todo := acc.flatten },
          acc, err)) := by
  refine ⟨?_, ?_, ?_, ?_⟩
  · unfold drainNearFull; split <;> simp
  · unfold drainNearFull; split <;> simp
  · unfold drainNearFull; split <;> simp
  · intro oracle r r1 acc err ht hloop
    unfold fillTodo
    rw [if_neg (by simp [ht]), hloop]

/-- Witness for C5: a capacity-4 channel with occupancy 3 is emptied; a
fill on a capacity-4 reader with 4 chunks queued dequeues one chunk and
then discards the remaining 3 (occupancy 3 ≥ capacity − 1 = 3). -/
theorem C5_catchup_heuristic_witness :
    (drainNearFull { cap := 4, buf := [[1], [2], [3]], closed := false }).buf = [] ∧
    fillTodo []
      { ch := { cap := 4, buf := [[0], [1], [2], [3]], closed := false },
        todo := [], lowwater := 1, ctxDone := false } =
      some ({ ch := { cap := 4, buf := [], closed := false }, todo := [0],
              lowwater := 1, ctxDone := false }, [[0]], none) := by
  constructor
  · rw [(C5_catchup_heuristic { cap := 4, buf := [[1], [2], [3]], closed := false }).1]
    decide
  · have h := (C5_catchup_heuristic
      { cap := 4, buf := [[1], [2], [3]], closed := false }).2.2.2 []
      { ch := { cap := 4, buf := [[0], [1], [2], [3]], closed := false },
        todo := [], lowwater := 1, ctxDone := false }
      { ch := { cap := 4, buf := [[1], [2], [3]], closed := false },
        todo := [], lowwater := 1, ctxDone := false }
      [[0]] none rfl (by decide)
    exact h.trans (by decide)

/-- C6 counterexample: a reader whose cancellation context has already
fired, but whose queue still holds a chunk, can return that chunk with a
nil error — `select` chooses among ready cases arbitrarily and here the
oracle picks the channel case.  So after the cancellation source fires a
fill attempt need not return a cancellation error, and the reader can
still deliver data: cancellation is not a terminal condition in the
claimed sense. -/
theorem C6_counterexample :
    fillTodo [true]
      { ch := { cap := 1, buf := [[9]], closed := false }, todo := [],
        lowwater := 1, ctxDone := true } =
      some ({ ch := { cap := 1, buf := [], closed := false }, todo := [9],
              lowwater := 1, ctxDone := true }, [[9]], none) := by decide

/-- C6 amended: the genuinely sticky terminal conditions.  A reader at
end-of-stream (channel closed and drained, pending empty, context live)
returns `io.EOF` with its state unchanged on every subsequent `Read`, for
any oracle; a cancelled reader with an empty queue and open channel
returns the cancellation error (distinct from `io.EOF`) with its state
unchanged on every subsequent `Read`.  But when a cancelled reader still
has queued or pending data, a read may nondeterministically deliver that
data (see the counterexample), so "delivers no further data" holds only
from empty-queue states. -/
theorem C6_terminal_conditions (oracle : List Bool) (r : Reader) (plen : Nat) :
    (r.todo = [] → r.ch.buf = [] → r.ch.closed = true → r.ctxDone = false →
      rread oracle r plen = some (r, [], some .eof)) ∧
    (r.todo = [] → r.ch.buf = [] → r.ch.closed = false → r.ctxDone = true →
      rread oracle r plen = some (r, [], some .canceled)) := by
  constructor
  · intro ht hb hc hx
    unfold rread
    rw [fillTodo_eofState oracle r ht hb hc hx]
    simp only [ht]
    cases r with
    | mk ch todo lw cd => simp_all
  · intro ht hb hc hx
    unfold rread
    rw [fillTodo_canceledState oracle r ht hb hc hx]
    simp only [ht]
    cases r with
    | mk ch todo lw cd => simp_all

/-- Witness for C6's amended statement: the two terminal states at
concrete inputs. -/
theorem C6_terminal_conditions_witness :
    rread [] { ch := { cap := 1, buf := [], closed := true }, todo := [],
               lowwater := 1, ctxDone := false } 8 =
      some ({ ch := { cap := 1, buf := [], closed := true }, todo := [],
              lowwater := 1, ctxDone := false }, [], some .eof) ∧
    rread [] { ch := { cap := 1, buf := [], closed := false }, todo := [],
               lowwater := 3, ctxDone := true } 8 =
      some ({ ch := { cap := 1, buf := [], closed := false }, todo := [],
              lowwater := 3, ctxDone := true }, [], some .canceled) :=
  ⟨(C6_terminal_conditions [] _ 8).1 rfl rfl rfl rfl,
   (C6_terminal_conditions [] _ 8).2 rfl rfl rfl rfl⟩

/-- C7: the fill step's target count is 1 whenever the queue is non-empty
or `lowwater` is 0 or 1, and is `lowwater` exactly when `lowwater > 1`
and the queue is empty; moreover `lowwater` 0 and 1 give identical fill
behaviour (identical results up to the stored `lowwater` value itself). -/
theorem C7_lowwater_target (r : Reader) :
    (r.ch.buf ≠ [] → fillTarget r = 1) ∧
    (r.lowwater = 0 ∨ r.lowwater = 1 → fillTarget r = 1) ∧
    (r.lowwater > 1 → r.ch.buf = [] → fillTarget r = r.lowwater) ∧
    (∀ oracle, fillTodo oracle { r with lowwater := 0 } =
      (fillTodo oracle { r with lowwater := 1 }).map
        (fun x => ({ x.1 with lowwater := 0 }, x.2))) := by
  refine ⟨?_, ?_, ?_, ?_⟩
  · intro h
    unfold fillTarget
    rw [if_neg]
    simp only [not_and]
    intro _
    simpa using h
  · intro h
    unfold fillTarget
    rw [if_neg]
    simp only [not_and]
    intro h2
    omega
  · intro h1 h2
    unfold fillTarget
    rw [if_pos ⟨h1, by simp [h2]⟩]
  · intro oracle
    by_cases ht : r.todo = []
    · unfold fillTodo
      simp only [ht, ne_eq, not_true_eq_false, if_false, ite_false]
      have ht0 : fillTarget { ch := r.ch, todo := ([] : List Nat),
                              lowwater := 0, ctxDone := r.ctxDone } = 1 := by
        simp [fillTarget]
      have ht1 : fillTarget { ch := r.ch, todo := ([] : List Nat),
                              lowwater := 1, ctxDone := r.ctxDone } = 1 := by
        simp [fillTarget]
      rw [ht0, ht1]
      have h0 := fillLoop_lowwater 1 oracle
        { ch := r.ch, todo := ([] : List Nat), lowwater := r.lowwater,
          ctxDone := r.ctxDone } [] 0
      have h1 := fillLoop_lowwater 1 oracle
        { ch := r.ch, todo := ([] : List Nat), lowwater := r.lowwater,
          ctxDone := r.ctxDone } [] 1
      rw [h0, h1]
      cases hbase : fillLoop 1 oracle
        { ch := r.ch, todo := ([] : List Nat), lowwater := r.lowwater,
          ctxDone := r.ctxDone } [] with
      | none => simp
      | some out =>
        obtain ⟨r1, acc, err⟩ := out
        simp
    · unfold fillTodo
      simp [ht]

/-- Witness for C7 at concrete readers: an empty queue with `lowwater` 5
targets 5 chunks; a non-empty queue targets 1; `lowwater` 1 targets 1. -/
theorem C7_lowwater_target_witness :
    fillTarget { ch := { cap := 2, buf := [], closed := false }, todo := [],
                 lowwater := 5, ctxDone := false } = 5 ∧
    fillTarget { ch := { cap := 2, buf := [[1]], closed := false }, todo := [],
                 lowwater := 5, ctxDone := false } = 1 ∧
    fillTarget { ch := { cap := 2, buf := [], closed := false }, todo := [],
                 lowwater := 1, ctxDone := false } = 1 :=
  ⟨(C7_lowwater_target _).2.2.1 (by decide) rfl,
   (C7_lowwater_target _).1 (by decide),
   (C7_lowwater_target _).2.1 (Or.inr rfl)⟩

/-- C8: in scenario B (256 writes of the 3-byte chunks `chunkB i`, each
followed by creating a capacity-256 reader, then `Close`), the reader
created right after write `i`, drained to end-of-stream, receives exactly
the chunks written strictly after its creation — `chunkB (i+1) …
chunkB 255`, none from before, no drops — which is `3 * (255 - i)`
bytes. -/
theorem C8_scenarioB_fresh_readers (lw : Nat) (oracle : List Bool) (i : Nat)
    (hi : i < 256) :
    readAll oracle 256 ((scenarioB lw).rd i) =
      some (((List.range' (i + 1) (255 - i)).map chunkB).flatten, some .eof) ∧
    (((List.range' (i + 1) (255 - i)).map chunkB).flatten).length =
      3 * (255 - i) := by
  constructor
  · rw [scenarioB_rd lw i hi]
    have h := readAll_closed_drain oracle
      ((List.range' (i + 1) (255 - i)).map chunkB)
      (scenBReader lw true 256 i) 256
      (by simp [scenBReader])
      rfl rfl rfl
      (by right
          simp only [scenBReader, List.length_map, List.length_range']
          omega)
      (by simp only [scenBReader, List.length_map, List.length_range']
          omega)
    have hbuf : (scenBReader lw true 256 i).ch.buf =
        (List.range' (i + 1) (255 - i)).map chunkB := by
      simp only [scenBReader]
      congr 2
      omega
    rw [hbuf] at h
    exact h
  · rw [flatten_map_chunkB]
    simp [List.length_range']

/-- Witness for C8 at `i = 254`, `lowwater` 1: the reader created after
write 254 receives exactly chunk 255, i.e. 3 bytes. -/
theorem C8_scenarioB_fresh_readers_witness :
    readAll [] 256 ((scenarioB 1).rd 254) =
      some (((List.range' 255 1).map chunkB).flatten, some .eof) ∧
    (((List.range' 255 1).map chunkB).flatten).length = 3 * (255 - 254) :=
  ⟨(C8_scenarioB_fresh_readers 1 [] 254 (by decide)).1,
   (C8_scenarioB_fresh_readers 1 [] 254 (by decide)).2⟩

/-- C9: `reader.Close` always returns nil; on a reader that is not
registered (never registered, already closed, or deregistered by the
broadcaster's `Close`) it performs no action at all; after a close the
reader is deregistered, so a second close is exactly a no-op — the
channel-closing effect cannot happen twice. -/
theorem C9_reader_close_idempotent (w : World) (id : Nat) :
    (readerClose w id).2 = none ∧
    (¬ w.registered id → readerClose w id = (w, none)) ∧
    ¬ (readerClose w id).1.registered id ∧
    readerClose (readerClose w id).1 id = ((readerClose w id).1, none) ∧
    readerClose (Tee.Close w).1 id = ((Tee.Close w).1, none) := by
  have h2 : ∀ v : World, ¬ v.registered id → readerClose v id = (v, none) := by
    intro v hv
    unfold readerClose
    rw [if_neg hv]
  have h3 : ¬ (readerClose w id).1.registered id := by
    rw [World.registered, readerClose_world_regs]
    by_cases hreg : w.registered id
    · rw [if_pos hreg]
      simp [List.mem_filter]
    · rw [if_neg hreg]
      exact hreg
  refine ⟨?_, h2 w, h3, h2 _ h3, h2 _ ?_⟩
  · unfold readerClose
    split <;> rfl
  · rw [World.registered, close_world_regs]
    simp

/-- Witness for C9: closing a reader of the zero-value broadcaster (never
registered) is a no-op returning nil. -/
theorem C9_reader_close_idempotent_witness :
    ¬ zeroWorld.registered 0 ∧ readerClose zeroWorld 0 = (zeroWorld, none) :=
  ⟨by decide, (C9_reader_close_idempotent zeroWorld 0).2.1 (by decide)⟩

/-- C10: on the zero-value broadcaster (registry `nil`), `Write` returns
`(len(p), nil)` and changes nothing, and `Close` returns nil and changes
nothing; more generally any broadcaster whose registry is `nil` (e.g.
after `Close`) absorbs writes with full success and no delivery. -/
theorem C10_zero_value_total (p : List Nat) :
    Tee.Write zeroWorld p = (zeroWorld, p.length, none) ∧
    Tee.Close zeroWorld = (zeroWorld, none) ∧
    (∀ w : World, w.regs = none → Tee.Write w p = (w, p.length, none)) := by
  refine ⟨rfl, rfl, ?_⟩
  intro w h
  unfold Tee.Write
  rw [h]
  rfl

/-- Witness for C10: a closed two-reader broadcaster absorbs a write with
no state change. -/
theorem C10_zero_value_total_witness :
    (Tee.Close c4World).1.regs = none ∧
    Tee.Write (Tee.Close c4World).1 [1, 2] = ((Tee.Close c4World).1, 2, none) :=
  ⟨by decide, (C10_zero_value_total [1, 2]).2.2 _ (by decide)⟩
